import Mathlib

/-!
Shallow embedding of the password decoding engine of
`src/backend/src/routes/tools.js` (the `password-decrypt` route): the four
decoders `decryptCiscoType7`, `decryptJuniperType9`, `decodeBase64`,
`checkMD5Hash` and the dispatching `switch` on the vendor type.

JavaScript strings produced by the decoders are modelled as lists of UTF-16
code units (`List Nat`), since `String.fromCharCode` can produce arbitrary
code units, including lone surrogates, which a Lean `Char` cannot carry.
Inputs, which are ordinary text, are modelled as Lean `String`s.
-/

/-- A JS value stored in a decoder result's `decrypted` field: either a proper
JS string (as UTF-16 code units), or — in the MD5 decoder only — a non-string
member inherited from `Object.prototype` by the plain-object property read,
identified by its property name (e.g. the function
`Object.prototype.constructor`). -/
inductive JsValue where
  | str : List Nat → JsValue
  | inherited : String → JsValue
deriving Repr, DecidableEq

/-- The result object of one decoder call: `{ success, decrypted?, message? }`. -/
structure DecodeResult where
  success : Bool
  decrypted : Option JsValue
  message : Option String
deriving Repr, DecidableEq

/-- The decoded code units of a result, when the decoder produced a JS string. -/
def decryptedCodes (r : DecodeResult) : Option (List Nat) :=
  match r.decrypted with
  | some (JsValue.str l) => some l
  | _ => none

/-- UTF-16 code units of an ASCII Lean string literal. -/
def strCodes (s : String) : List Nat := s.data.map Char.toNat

/-- Character class of the regex `[0-9A-Fa-f]`. -/
def isHexDigit (c : Char) : Bool :=
  c.isDigit || (decide ('a' ≤ c) && decide (c ≤ 'f')) || (decide ('A' ≤ c) && decide (c ≤ 'F'))

/-- Numeric value of a hexadecimal digit character. -/
def hexDigitVal (c : Char) : Nat :=
  if c.isDigit then c.toNat - 48
  else if 'a' ≤ c ∧ c ≤ 'f' then c.toNat - 87
  else if 'A' ≤ c ∧ c ≤ 'F' then c.toNat - 55
  else 0

/-- JS `parseInt(s, 10)` as the decoder uses it (no sign or whitespace occurs
here because the input already passed the hex-character regex): the longest
prefix of decimal digits is parsed; `none` models a `NaN` result. -/
def jsParseIntDec (cs : List Char) : Option Nat :=
  match cs.takeWhile Char.isDigit with
  | [] => none
  | ds => some (ds.foldl (fun a c => 10 * a + (c.toNat - 48)) 0)

/-- JS `parseInt(s, 16)`: the longest prefix of hexadecimal digits is parsed;
`none` models a `NaN` result. -/
def jsParseIntHex (cs : List Char) : Option Nat :=
  match cs.takeWhile isHexDigit with
  | [] => none
  | ds => some (ds.foldl (fun a c => 16 * a + hexDigitVal c) 0)

/-- The fixed 53-character Cisco Type 7 key string, as character codes. -/
def ciscoKey : List Nat :=
  strCodes "dsfd;kfoA,.iyewrkldJKDHSUBsgvca69834ncxv9873254k;fg87"

/-- `key.charCodeAt(keyIndex)` where `keyIndex = (i / 2 - 1 + salt) % key.length`
and `p = i / 2 - 1` is the pair index.  When the salt parse produced `NaN`
the whole index expression is `NaN`, and `charCodeAt` coerces `NaN` to
position `0` (`ToIntegerOrInfinity(NaN) = 0`). -/
def ciscoKeyCharAt (salt : Option Nat) (p : Nat) : Nat :=
  match salt with
  | some s => ciscoKey.getD ((p + s) % ciscoKey.length) 0
  | none => ciscoKey.getD 0 0

/-- The body of `for (let i = 2; i < encrypted.length; i += 2)`: each step takes
`encrypted.substring(i, i + 2)` (a single character on the last step of an
odd-length string), parses it as hex, and XORs with the key character at the
pair index `p = i / 2 - 1`.  A `NaN` operand of the bitwise XOR coerces to `0`
(`ToInt32(NaN) = 0`), hence the `getD 0`. -/
def ciscoLoop (salt : Option Nat) (p : Nat) : List Char → List Nat
  | [] => []
  | [c] => [(jsParseIntHex [c]).getD 0 ^^^ ciscoKeyCharAt salt p]
  | c0 :: c1 :: rest =>
      ((jsParseIntHex [c0, c1]).getD 0 ^^^ ciscoKeyCharAt salt p) ::
        ciscoLoop salt (p + 1) rest

/-- `decryptCiscoType7`: the guard is the regex `/^[0-9A-Fa-f]+$/` (non-empty,
hex characters only — the length's parity is not inspected); on success the
salt is `parseInt(encrypted.substring(0, 2), 10)` and the loop above decodes
the remaining pairs.  Nothing in the `try` block can throw, so the `catch`
branch is unreachable. -/
def decryptCiscoType7 (encrypted : String) : DecodeResult :=
  if encrypted.data ≠ [] ∧ encrypted.data.all isHexDigit then
    { success := true
      decrypted := some (JsValue.str (ciscoLoop (jsParseIntDec (encrypted.data.take 2)) 0
        (encrypted.data.drop 2)))
      message := none }
  else
    { success := false, decrypted := none
      message := some "Invalid Cisco Type 7 format" }

/-- `JUNIPER_KEYS_STRING = JUNIPER_KEYS.join("")`: the 65-character alphabet. -/
def JUNIPER_KEYS_STRING : List Char :=
  ("QzF3n6/9CAtpu0O".data ++ "B1IREhcSyrleKvMW8LXx".data) ++
    ("7N-dVbwsY2g4oaJZGUDj".data ++ "iHkq.mPf5T".data)

/-- `JUNIPER_ENCODING`: the 7-row table of weights. -/
def JUNIPER_ENCODING : List (List Nat) :=
  [[1, 4, 32], [1, 16, 32], [1, 8, 32], [1, 64], [1, 32], [1, 4, 16, 128], [1, 32, 64]]

/-- `JUNIPER_CHARACTER_KEYS[c] = 3 - idx` for the key group `idx` containing
`c` (the groups are disjoint, so the build order does not matter); `none`
models an `undefined` lookup. -/
def juniperCharacterKey (c : Char) : Option Nat :=
  if c ∈ "QzF3n6/9CAtpu0O".data then some 3
  else if c ∈ "B1IREhcSyrleKvMW8LXx".data then some 2
  else if c ∈ "7N-dVbwsY2g4oaJZGUDj".data then some 1
  else if c ∈ "iHkq.mPf5T".data then some 0
  else none

/-- JS `String.indexOf` restricted to one-character needles: the index of the
first occurrence, `-1` when absent. -/
def jsIndexOf (l : List Char) (c : Char) : Int :=
  match l.findIdx? (· == c) with
  | some i => (i : Int)
  | none => -1

/-- JS `String.fromCharCode(v)` emits the code unit `ToUint16(v)`, that is
`v` reduced modulo `2 ^ 16` into `[0, 65536)`. -/
def jsFromCharCode (v : Int) : Nat := (v % 65536).toNat

/-- `JUNIPER_ENCODING[outLen % JUNIPER_ENCODING.length]`. -/
def juniperRow (outLen : Nat) : List Nat :=
  JUNIPER_ENCODING.getD (outLen % JUNIPER_ENCODING.length) []

/-- The inner `for` over one nibble zipped with its row of weights:
`gap = charIndex - prevCharIndex`, then `gap = ((gap % L) + L) % L` with JS
`%` being the truncated remainder (`Int.tmod`), then `value += (gap - 1) *
weight`, and `previousChar` advances to the current character. -/
def juniperStep (prev : Char) (value : Int) : List (Char × Nat) → Char × Int
  | [] => (prev, value)
  | (c, w) :: rest =>
      juniperStep c
        (value +
          (((jsIndexOf JUNIPER_KEYS_STRING c - jsIndexOf JUNIPER_KEYS_STRING prev).tmod
                (JUNIPER_KEYS_STRING.length : Int) +
              (JUNIPER_KEYS_STRING.length : Int)).tmod (JUNIPER_KEYS_STRING.length : Int) - 1) *
          (w : Int))
        rest

/-- The `while (strippedPasswordCharacters.length > 0)` loop: take the row for
the current output length, consume that many characters as the nibble, fold
them with `juniperStep`, and emit `String.fromCharCode(value)`. -/
def juniperLoop (stripped : List Char) (prev : Char) (outLen : Nat) : List Nat :=
  match stripped with
  | [] => []
  | c :: cs =>
      match juniperStep prev 0 (((c :: cs).take (juniperRow outLen).length).zip
          (juniperRow outLen)) with
      | (prev2, value) =>
          jsFromCharCode value ::
            juniperLoop ((c :: cs).drop (juniperRow outLen).length) prev2 (outLen + 1)
termination_by stripped.length
decreasing_by
  have h1 : ∀ m, m < 7 → 1 ≤ (JUNIPER_ENCODING.getD m []).length := by decide
  have h2 : outLen % JUNIPER_ENCODING.length < 7 :=
    Nat.mod_lt _ (by decide)
  have h3 := h1 _ h2
  simp only [juniperRow, List.length_drop, List.length_cons]
  omega

/-- `encryptedPassword.split("$9$")[1]` for a string that starts with `"$9$"`:
the characters after the prefix, cut at the next occurrence of `"$9$"`. -/
def takeUntilDollar9 : List Char → List Char
  | [] => []
  | c :: rest =>
      if c = '$' ∧ rest.take 2 = ['9', '$'] then []
      else c :: takeUntilDollar9 rest

/-- `passwordCharacters.substring(skipChars)` where `skipChars` is the family
value of the first character plus one.  When the first character is not in
the table the lookup is `undefined`, `undefined + 1` is `NaN`, and
`substring(NaN)` behaves as `substring(0)`. -/
def juniperStrip (rest : List Char) : List Char :=
  match rest with
  | [] => []
  | c :: _ =>
      match juniperCharacterKey c with
      | some fam => rest.drop (fam + 1)
      | none => rest

/-- `decryptJuniperType9`: reject anything not starting with `"$9$"`;
otherwise decode the remainder.  When the remainder is empty,
`charAt(0)` is the empty string, the skip is `NaN` (so nothing is
stripped) and the loop body never runs, so the decoded value is the empty
string.  Nothing in the `try` block can throw (`indexOf` yields `-1` and
`fromCharCode` accepts any number), so the `catch` branch is unreachable. -/
def decryptJuniperType9 (encryptedPassword : String) : DecodeResult :=
  if encryptedPassword.data.take 3 = ['$', '9', '$'] then
    match takeUntilDollar9 (encryptedPassword.data.drop 3) with
    | [] => { success := true, decrypted := some (JsValue.str []), message := none }
    | c :: cs =>
        { success := true
          decrypted := some (JsValue.str (juniperLoop (juniperStrip (c :: cs)) c 0))
          message := none }
  else
    { success := false, decrypted := none
      message := some "Not a valid Juniper Type 9 password" }

/-- The standard Base64 alphabet in its index order. -/
def base64Alphabet : List Char :=
  "ABCDEFGHIJKLMNOPQRSTUVWXYZabcdefghijklmnopqrstuvwxyz0123456789+/".data

/-- Index of a character in the Base64 alphabet, `none` for foreign characters. -/
def sextetVal (c : Char) : Option Nat := base64Alphabet.findIdx? (· == c)

/-- Sextet groups to bytes: a full group of 4 gives 3 bytes, a trailing group
of 3 gives 2 bytes, of 2 gives 1 byte, and a lone trailing sextet gives
nothing (Node's lenient Base64 decoder). -/
def sextetsToBytes : List Nat → List Nat
  | a :: b :: c :: d :: rest =>
      (a * 4 + b / 16) :: ((b % 16) * 16 + c / 4) :: ((c % 4) * 64 + d) ::
        sextetsToBytes rest
  | [a, b] => [a * 4 + b / 16]
  | [a, b, c] => [a * 4 + b / 16, (b % 16) * 16 + c / 4]
  | _ => []

/-- Modelling `Buffer.from(encoded, 'base64')`: Node's decoder is lenient — it
reads up to the first `'='`, skips characters outside the Base64 alphabet,
decodes the remaining sextets, and never throws for any string input. -/
def nodeBase64Bytes (s : String) : List Nat :=
  sextetsToBytes ((s.data.takeWhile (fun c => c != '=')).filterMap sextetVal)

/-- Whether a byte is a UTF-8 continuation byte `10xxxxxx`. -/
def isUtf8Cont (b : Nat) : Bool := 128 ≤ b && b < 192

/-- Modelling `buffer.toString('utf8')`: UTF-8 bytes to UTF-16 code units;
malformed sequences become the replacement character U+FFFD and code points
above U+FFFF become surrogate pairs. -/
def utf8ToUtf16 (l : List Nat) : List Nat :=
  match l with
  | [] => []
  | b0 :: r0 =>
    if b0 < 128 then b0 :: utf8ToUtf16 r0
    else if b0 < 194 then 0xFFFD :: utf8ToUtf16 r0
    else if b0 < 224 then
      match h : r0 with
      | b1 :: r1 =>
          if isUtf8Cont b1 then ((b0 - 192) * 64 + (b1 - 128)) :: utf8ToUtf16 r1
          else 0xFFFD :: utf8ToUtf16 r0
      | [] => [0xFFFD]
    else if b0 < 240 then
      match h : r0 with
      | b1 :: b2 :: r2 =>
          if isUtf8Cont b1 && isUtf8Cont b2 then
            if 0x800 ≤ (b0 - 224) * 4096 + (b1 - 128) * 64 + (b2 - 128) ∧
                ¬(0xD800 ≤ (b0 - 224) * 4096 + (b1 - 128) * 64 + (b2 - 128) ∧
                  (b0 - 224) * 4096 + (b1 - 128) * 64 + (b2 - 128) < 0xE000) then
              ((b0 - 224) * 4096 + (b1 - 128) * 64 + (b2 - 128)) :: utf8ToUtf16 r2
            else 0xFFFD :: utf8ToUtf16 r2
          else 0xFFFD :: utf8ToUtf16 r0
      | _ => [0xFFFD]
    else if b0 < 245 then
      match h : r0 with
      | b1 :: b2 :: b3 :: r3 =>
          if isUtf8Cont b1 && isUtf8Cont b2 && isUtf8Cont b3 then
            if 0x10000 ≤ (b0 - 240) * 262144 + (b1 - 128) * 4096 + (b2 - 128) * 64 + (b3 - 128) ∧
                (b0 - 240) * 262144 + (b1 - 128) * 4096 + (b2 - 128) * 64 + (b3 - 128) < 0x110000 then
              (0xD800 + ((b0 - 240) * 262144 + (b1 - 128) * 4096 + (b2 - 128) * 64 + (b3 - 128) - 0x10000) / 1024) ::
                (0xDC00 + ((b0 - 240) * 262144 + (b1 - 128) * 4096 + (b2 - 128) * 64 + (b3 - 128) - 0x10000) % 1024) ::
                utf8ToUtf16 r3
            else 0xFFFD :: utf8ToUtf16 r3
          else 0xFFFD :: utf8ToUtf16 r0
      | _ => [0xFFFD]
    else 0xFFFD :: utf8ToUtf16 r0
termination_by l.length
decreasing_by all_goals (subst_vars; simp only [List.length_cons]; omega)

/-- `decodeBase64`: `Buffer.from(encoded, 'base64').toString('utf8')` never
throws for a string argument, so the function always succeeds and the
`catch` branch returning "Invalid Base64 format" is unreachable. -/
def decodeBase64 (encoded : String) : DecodeResult :=
  { success := true
    decrypted := some (JsValue.str (utf8ToUtf16 (nodeBase64Bytes encoded)))
    message := none }

/-- The fixed `knownHashes` table of `checkMD5Hash`. -/
def knownHashes : List (String × String) :=
  [("5f4dcc3b5aa765d61d8327deb882cf99", "password"),
   ("e10adc3949ba59abbe56e057f20f883e", "123456"),
   ("25d55ad283aa400af464c76d713c07ad", "12345678"),
   ("5eb63bbbe01eeed093cb22bb8f5acdc3", "hello"),
   ("098f6bcd4621d373cade4e832627b4f6", "test"),
   ("827ccb0eea8a706c4c34a16891f84e7b", "12345")]

/-- JS `toLowerCase` restricted to ASCII (every table key is ASCII hex). -/
def jsToLower (s : String) : String := ⟨s.data.map Char.toLower⟩

/-- The own property names of `Object.prototype`.  A property read on a plain
object literal such as `knownHashes` walks the prototype chain: when the key
is not an own property, these inherited members are found instead, and every
one of them is a function or object, hence truthy. -/
def objectPrototypeProps : List String :=
  ["constructor", "__defineGetter__", "__defineSetter__", "hasOwnProperty",
   "__lookupGetter__", "__lookupSetter__", "isPrototypeOf",
   "propertyIsEnumerable", "toString", "valueOf", "__proto__", "toLocaleString"]

/-- `knownHashes[key]` on the plain object literal: an own property's string
value; otherwise the inherited `Object.prototype` member (truthy but not a
string); otherwise `undefined` (`none`, falsy). -/
def jsPlainObjectGet (props : List (String × String)) (key : String) : Option JsValue :=
  match props.lookup key with
  | some v => some (JsValue.str (strCodes v))
  | none =>
      if objectPrototypeProps.contains key then some (JsValue.inherited key)
      else none

/-- `checkMD5Hash`: `if (knownHashes[hash.toLowerCase()])` — a reverse lookup
of the lowercased digest.  Every stored plaintext is a non-empty, hence
truthy, string; but the property read also reaches the truthy members
inherited from `Object.prototype` (e.g. keys `"constructor"` and
`"__proto__"`), which therefore also take the success branch. -/
def checkMD5Hash (hash : String) : DecodeResult :=
  match jsPlainObjectGet knownHashes (jsToLower hash) with
  | some v =>
      { success := true, decrypted := some v, message := none }
  | none =>
      { success := false, decrypted := none
        message := some "Hash not found in known passwords database" }

/-- The `switch (vendorType)` of the `password-decrypt` route: four recognized
schemes, any other value yields the unsupported-type failure. -/
def passwordDecrypt (vendorType : String) (encryptedPassword : String) : DecodeResult :=
  if vendorType = "cisco-type7" then decryptCiscoType7 encryptedPassword
  else if vendorType = "juniper-type9" then decryptJuniperType9 encryptedPassword
  else if vendorType = "base64" then decodeBase64 encryptedPassword
  else if vendorType = "generic-md5" then checkMD5Hash encryptedPassword
  else { success := false, decrypted := none
         message := some "Unsupported encryption type" }

/-!
### Spec-side reference definitions

These follow the specification's wording, to be compared with the
embedded code above.
-/

/-- The Cisco Type 7 plaintext as the spec states it: for the hex pair at
zero-based pair index `i` with byte value `b`, emit
`chr(b XOR code(key[(i + s) mod 53]))`. -/
def specCiscoPlain (s : Nat) : Nat → List Char → List Nat
  | _, [] => []
  | _, [_] => []
  | i, c0 :: c1 :: rest =>
      ((16 * hexDigitVal c0 + hexDigitVal c1) ^^^ ciscoKey.getD ((i + s) % 53) 0) ::
        specCiscoPlain s (i + 1) rest

/-- The spec's gap accumulation over one nibble zipped with its row:
`gap = ((currentPos - previousPos) mod 65) - 1` with the mathematical
modulus into `[0, 65)`, `value` accumulates `gap * weight`, and the
previous character advances after each step. -/
def specJuniperStep (prev : Char) (value : Int) : List (Char × Nat) → Char × Int
  | [] => (prev, value)
  | (c, w) :: rest =>
      specJuniperStep c
        (value +
          ((jsIndexOf JUNIPER_KEYS_STRING c - jsIndexOf JUNIPER_KEYS_STRING prev) % 65 - 1) *
          (w : Int))
        rest

/-- The spec's decode loop: select `row = encodingTable[outputLength mod 7]`,
consume `row.length` characters, and emit one output value per row — the raw
weighted sum, which the claim calls the code of the output character. -/
def specJuniperLoop (data : List Char) (prev : Char) (outLen : Nat) : List Int :=
  match data with
  | [] => []
  | c :: cs =>
      match specJuniperStep prev 0 (((c :: cs).take (juniperRow outLen).length).zip
          (juniperRow outLen)) with
      | (prev2, value) =>
          value ::
            specJuniperLoop ((c :: cs).drop (juniperRow outLen).length) prev2 (outLen + 1)
termination_by data.length
decreasing_by
  have h1 : ∀ m, m < 7 → 1 ≤ (JUNIPER_ENCODING.getD m []).length := by decide
  have h2 : outLen % JUNIPER_ENCODING.length < 7 :=
    Nat.mod_lt _ (by decide)
  have h3 := h1 _ h2
  simp only [juniperRow, List.length_drop, List.length_cons]
  omega

/-- The spec's reference decoding of the remainder `rest` after `"$9$"`:
skip `family index of the first character + 1` characters, then run the
decode loop with the first character as the initial previous character. -/
def specJuniper (rest : List Char) : List Int :=
  match rest with
  | [] => []
  | c :: _ => specJuniperLoop (rest.drop ((juniperCharacterKey c).getD 0 + 1)) c 0

/-- The data after the skip block aligns exactly with the row table: each
selected row is consumed in full until nothing remains. -/
def juniperAligned (n : Nat) (outLen : Nat) : Bool :=
  match n with
  | 0 => true
  | m + 1 =>
      if (juniperRow outLen).length ≤ m + 1 then
        juniperAligned (m + 1 - (juniperRow outLen).length) (outLen + 1)
      else false
termination_by n
decreasing_by
  have h1 : ∀ m, m < 7 → 1 ≤ (JUNIPER_ENCODING.getD m []).length := by decide
  have h2 : outLen % JUNIPER_ENCODING.length < 7 :=
    Nat.mod_lt _ (by decide)
  have h3 := h1 _ h2
  simp only [juniperRow] at *
  omega

/-- Uppercase hexadecimal digit of a value below 16. -/
def hexUDigit (v : Nat) : Char := "0123456789ABCDEF".data.getD v '0'

/-- Body of the symmetric Cisco Type 7 encoder described by the spec: for the
plaintext code `b` at pair index `i`, the two hex digits of
`b XOR code(key[(i + s) mod 53])`. -/
def ciscoEncodeBody (s : Nat) : Nat → List Nat → List Char
  | _, [] => []
  | i, b :: rest =>
      hexUDigit ((b ^^^ ciscoKey.getD ((i + s) % 53) 0) / 16) ::
        hexUDigit ((b ^^^ ciscoKey.getD ((i + s) % 53) 0) % 16) ::
        ciscoEncodeBody s (i + 1) rest

/-- The symmetric Cisco Type 7 encoder described by the spec: the two-digit
decimal salt followed by the XOR-ed hex pairs. -/
def ciscoEncode (s : Nat) (ptext : List Nat) : String :=
  ⟨Char.ofNat (48 + s / 10) :: Char.ofNat (48 + s % 10) :: ciscoEncodeBody s 0 ptext⟩

/-- The result-shape invariant of the spec's `DecodeResult`: the plaintext is
present exactly on success and the failure reason exactly on failure. -/
def wellFormedResult (r : DecodeResult) : Prop :=
  (r.success = true ∧ r.decrypted.isSome = true ∧ r.message = none) ∨
    (r.success = false ∧ r.decrypted = none ∧ r.message.isSome = true)

/-!
### General lemmas
-/

theorem findIdx?_lt_length {α : Type} (p : α → Bool) :
    ∀ (l : List α) (start i : Nat), l.findIdx? p start = some i → i < start + l.length
  | [], _, _, h => by simp [List.findIdx?] at h
  | a :: l, start, i, h => by
      rw [List.findIdx?_cons] at h
      by_cases hp : p a = true
      · rw [if_pos hp] at h
        simp only [Option.some.injEq] at h
        simp [← h]
      · rw [if_neg hp] at h
        have := findIdx?_lt_length p l (start + 1) i h
        simp only [List.length_cons]
        omega

theorem jsIndexOf_range (l : List Char) (c : Char) :
    -1 ≤ jsIndexOf l c ∧ jsIndexOf l c < (l.length : Int) := by
  unfold jsIndexOf
  cases h : l.findIdx? (· == c) with
  | none =>
      show -1 ≤ (-1 : Int) ∧ (-1 : Int) < (l.length : Int)
      have : (0 : Int) ≤ l.length := by positivity
      omega
  | some i =>
      show -1 ≤ (i : Int) ∧ (i : Int) < (l.length : Int)
      have := findIdx?_lt_length _ l 0 i h
      omega

/-- JS's truncated-remainder normalization `((d % 65) + 65) % 65` agrees with the
mathematical modulus for the bounded differences that index gaps produce. -/
theorem tmod_chain_eq (d : Int) (h1 : -65 ≤ d) (h2 : d ≤ 65) :
    (d.tmod 65 + 65).tmod 65 = d % 65 := by
  have key : ∀ n : Nat, n ≤ 130 →
      ((((n : Int) - 65).tmod 65 + 65).tmod 65 = ((n : Int) - 65) % 65) := by decide
  have h3 : (d + 65).toNat ≤ 130 := by omega
  have h4 : (((d + 65).toNat : Int)) - 65 = d := by omega
  have h5 := key (d + 65).toNat h3
  rwa [h4] at h5

theorem juniperStep_eq_spec : ∀ (l : List (Char × Nat)) (prev : Char) (v : Int),
    juniperStep prev v l = specJuniperStep prev v l
  | [], _, _ => rfl
  | (c, w) :: rest, prev, v => by
      have hL : (JUNIPER_KEYS_STRING.length : Int) = 65 := by decide
      have hc := jsIndexOf_range JUNIPER_KEYS_STRING c
      have hp := jsIndexOf_range JUNIPER_KEYS_STRING prev
      rw [show (JUNIPER_KEYS_STRING.length : Int) = 65 from hL] at hc hp
      simp only [juniperStep, specJuniperStep, hL]
      rw [tmod_chain_eq _ (by omega) (by omega)]
      exact juniperStep_eq_spec rest c _

/-- The embedded decode loop emits exactly the spec loop's weighted sums reduced
modulo `2 ^ 16` (the `String.fromCharCode` conversion). -/
theorem juniperLoop_eq_spec (stripped : List Char) (prev : Char) (outLen : Nat) :
    juniperLoop stripped prev outLen =
      (specJuniperLoop stripped prev outLen).map (fun v => (v % 65536).toNat) := by
  induction stripped, prev, outLen using juniperLoop.induct with
  | case1 prev outLen => rw [juniperLoop, specJuniperLoop]; rfl
  | case2 prev outLen c cs prev2 value hstep ih =>
      rw [juniperLoop, specJuniperLoop]
      rw [juniperStep_eq_spec] at hstep
      rw [juniperStep_eq_spec, hstep]
      simp only [ih, List.map_cons, jsFromCharCode]

theorem takeUntilDollar9_no_dollar : ∀ (l : List Char), (∀ x ∈ l, x ≠ '$') →
    takeUntilDollar9 l = l
  | [], _ => rfl
  | c :: rest, h => by
      rw [takeUntilDollar9]
      rw [if_neg (by simp at h; simp [h.1])]
      rw [takeUntilDollar9_no_dollar rest (fun x hx => h x (by simp [hx]))]

theorem mem_alphabet_characterKey :
    ∀ c ∈ JUNIPER_KEYS_STRING, (juniperCharacterKey c).isSome = true := by
  decide

theorem dollar_not_mem_alphabet : '$' ∉ JUNIPER_KEYS_STRING := by decide

theorem jsParseIntHex_pair (c0 c1 : Char) (h0 : isHexDigit c0 = true) (h1 : isHexDigit c1 = true) :
    jsParseIntHex [c0, c1] = some (16 * hexDigitVal c0 + hexDigitVal c1) := by
  simp [jsParseIntHex, List.takeWhile_cons, h0, h1]

theorem jsParseIntDec_pair (c0 c1 : Char) (h0 : c0.isDigit = true) (h1 : c1.isDigit = true) :
    jsParseIntDec [c0, c1] = some (10 * (c0.toNat - 48) + (c1.toNat - 48)) := by
  simp [jsParseIntDec, List.takeWhile_cons, h0, h1]

theorem ciscoKey_length : ciscoKey.length = 53 := by decide

/-- The embedded decryption loop computes the spec's per-pair formula on
even-length hexadecimal bodies. -/
theorem ciscoLoop_spec (salt : Nat) : ∀ (p : Nat) (body : List Char),
    body.all isHexDigit = true → body.length % 2 = 0 →
    ciscoLoop (some salt) p body = specCiscoPlain salt p body
  | _, [], _, _ => rfl
  | _, [_], _, h => by simp at h
  | p, c0 :: c1 :: rest, hhex, heven => by
      simp only [List.all_cons, Bool.and_eq_true] at hhex
      obtain ⟨h0, h1, hrest⟩ := hhex
      rw [ciscoLoop, specCiscoPlain]
      rw [ciscoLoop_spec salt (p + 1) rest hrest
        (by simp only [List.length_cons] at heven; omega)]
      rw [jsParseIntHex_pair c0 c1 h0 h1]
      rw [show ciscoKeyCharAt (some salt) p = ciscoKey.getD ((p + salt) % 53) 0 by
        rw [ciscoKeyCharAt, ciscoKey_length]]
      rfl

/-!
### The claims
-/

unseal juniperLoop specJuniperLoop juniperAligned in
/-- C1 (counterexample): on the aligned, alphabet-constrained input
`"$9$QQQQQQQ"` the decoder succeeds with the single code unit `65499`, while
the reference algorithm's raw weighted sum is `-37`: the emitted character's
code is not the sum itself, so the claim as stated fails. -/
theorem C1_counterexample :
    (∀ x ∈ ('Q' :: "QQQQQQ".data), x ∈ JUNIPER_KEYS_STRING) ∧
    juniperAligned (('Q' :: "QQQQQQ".data).length - ((juniperCharacterKey 'Q').getD 0 + 1)) 0 = true ∧
    (decryptJuniperType9 "$9$QQQQQQQ").decrypted = some (JsValue.str [65499]) ∧
    specJuniper ('Q' :: "QQQQQQ".data) = [-37] ∧
    (((decryptedCodes (decryptJuniperType9 "$9$QQQQQQQ")).map (List.map (Int.ofNat))) ==
      some (specJuniper ('Q' :: "QQQQQQ".data))) = false := by
  decide

/-- C1 (amended): for `"$9$" ++ rest` with `rest` non-empty, drawn from the
65-character alphabet, and aligned with the row table after the skip block,
the Juniper Type 9 decoder succeeds and its plaintext code units are exactly
the reference algorithm's weighted sums reduced modulo `2 ^ 16` (the
`String.fromCharCode` conversion); the raw sum can be negative, so the
reduction is what the code actually emits. -/
theorem C1_amended (c : Char) (cs : List Char)
    (hmem : ∀ x ∈ c :: cs, x ∈ JUNIPER_KEYS_STRING)
    (_halign : juniperAligned ((c :: cs).length - ((juniperCharacterKey c).getD 0 + 1)) 0 = true) :
    decryptJuniperType9 ⟨'$' :: '9' :: '$' :: c :: cs⟩ =
      { success := true
        decrypted := some (JsValue.str ((specJuniper (c :: cs)).map (fun v => (v % 65536).toNat)))
        message := none } := by
  have hnd : ∀ x ∈ c :: cs, x ≠ '$' := by
    intro x hx he
    exact dollar_not_mem_alphabet (he ▸ hmem x hx)
  have hkey := mem_alphabet_characterKey c (hmem c (by simp))
  obtain ⟨fam, hfam⟩ := Option.isSome_iff_exists.mp hkey
  rw [decryptJuniperType9]
  rw [show (String.mk ('$' :: '9' :: '$' :: c :: cs)).data = '$' :: '9' :: '$' :: c :: cs from rfl]
  rw [show List.take 3 ('$' :: '9' :: '$' :: c :: cs) = ['$', '9', '$'] from rfl]
  rw [if_pos rfl]
  rw [show List.drop 3 ('$' :: '9' :: '$' :: c :: cs) = c :: cs from rfl]
  rw [takeUntilDollar9_no_dollar _ hnd]
  show { success := true
         decrypted := some (JsValue.str (juniperLoop (juniperStrip (c :: cs)) c 0))
         message := none : DecodeResult } = _
  rw [juniperStrip.eq_def, specJuniper.eq_def]
  simp only [hfam, Option.getD_some]
  rw [juniperLoop_eq_spec]

unseal juniperLoop specJuniperLoop juniperAligned in
/-- C1 (witness): the amended theorem applied to `"$9$QQQQQQQ"`, whose single
output unit is `-37 mod 2 ^ 16 = 65499`. -/
theorem C1_witness :
    decryptJuniperType9 ⟨'$' :: '9' :: '$' :: 'Q' :: "QQQQQQ".data⟩ =
      { success := true, decrypted := some (JsValue.str [65499]), message := none } :=
  (C1_amended 'Q' "QQQQQQ".data (by decide) (by decide)).trans (by decide)

/-- C2: on an even-length hexadecimal input whose first two characters are
decimal digits encoding the salt, the Cisco Type 7 decoder succeeds and its
`i`-th plaintext code is `b_i XOR code(key[(i + s) mod 53])`. -/
theorem C2_cisco_matches_spec (c0 c1 : Char) (body : List Char)
    (h0 : c0.isDigit = true) (h1 : c1.isDigit = true)
    (hhex : (c0 :: c1 :: body).all isHexDigit = true)
    (heven : body.length % 2 = 0) :
    decryptCiscoType7 ⟨c0 :: c1 :: body⟩ =
      { success := true
        decrypted := some (JsValue.str (specCiscoPlain (10 * (c0.toNat - 48) + (c1.toNat - 48)) 0 body))
        message := none } := by
  rw [decryptCiscoType7]
  rw [if_pos (⟨by simp, hhex⟩ : (String.mk (c0 :: c1 :: body)).data ≠ [] ∧
    (String.mk (c0 :: c1 :: body)).data.all isHexDigit = true)]
  rw [show (String.mk (c0 :: c1 :: body)).data = c0 :: c1 :: body from rfl]
  rw [show List.take 2 (c0 :: c1 :: body) = [c0, c1] from rfl,
      show List.drop 2 (c0 :: c1 :: body) = body from rfl]
  rw [jsParseIntDec_pair c0 c1 h0 h1]
  rw [ciscoLoop_spec _ 0 body
    (by simp only [List.all_cons, Bool.and_eq_true] at hhex; exact hhex.2.2) heven]

/-- C2 (witness): the documented vector — decoding `"094F471A1A0A"` yields the
plaintext `"cisco"`. -/
theorem C2_witness :
    decryptCiscoType7 "094F471A1A0A" =
      { success := true, decrypted := some (JsValue.str (strCodes "cisco")), message := none } := by
  have h := C2_cisco_matches_spec '0' '9' "4F471A1A0A".data (by decide) (by decide)
    (by decide) (by decide)
  rw [show ("094F471A1A0A" : String) = ⟨'0' :: '9' :: "4F471A1A0A".data⟩ from by decide]
  rw [h]
  decide

/-- C3 (counterexample): the odd-length hexadecimal input `"091"` and the
even-length input `"A0FF"` whose salt characters are not decimal digits are
both decoded with `success = true`, against the claim that they fail. -/
theorem C3_counterexample :
    "091".data.length % 2 = 1 ∧ "091".data.all isHexDigit = true ∧
    decryptCiscoType7 "091" =
      { success := true, decrypted := some (JsValue.str [45]), message := none } ∧
    "A0FF".data.length % 2 = 0 ∧ "A0FF".data.all isHexDigit = true ∧
    'A'.isDigit = false ∧ jsParseIntDec "A0".data = none ∧
    decryptCiscoType7 "A0FF" =
      { success := true, decrypted := some (JsValue.str [155]), message := none } := by
  decide

/-- C3 (amended): the Cisco Type 7 decoder rejects exactly the inputs that are
empty or contain a character outside `[0-9A-Fa-f]`, with the message
`"Invalid Cisco Type 7 format"` (capital `I`) and no partial output; an
even-length requirement is not enforced (a trailing lone hex digit is decoded
as its own pair) and a non-numeric salt does not fail (the `NaN` index makes
`charCodeAt` read position 0 of the key). -/
theorem C3_amended (s : String) (h : ¬(s.data ≠ [] ∧ s.data.all isHexDigit = true)) :
    decryptCiscoType7 s =
      { success := false, decrypted := none, message := some "Invalid Cisco Type 7 format" } := by
  rw [decryptCiscoType7, if_neg h]

/-- C3 (witness): the amended theorem at the non-hexadecimal input `"cisco!"`. -/
theorem C3_witness :
    decryptCiscoType7 "cisco!" =
      { success := false, decrypted := none, message := some "Invalid Cisco Type 7 format" } :=
  C3_amended "cisco!" (by decide)

unseal utf8ToUtf16 in
/-- C4 (counterexample): `"!"` contains a character outside the Base64
alphabet, yet the decoder returns `success = true` (with empty output), not
the claimed failure. -/
theorem C4_counterexample :
    '!' ∈ "!".data ∧ base64Alphabet.contains '!' = false ∧
    decodeBase64 "!" =
      { success := true, decrypted := some (JsValue.str []), message := none } := by
  decide

/-- C4 (amended): the Base64 decoder is lenient: `Buffer.from(s, 'base64')`
never throws for a string argument (foreign characters are ignored), so the
decoder succeeds on every input and the `"Invalid Base64 format"` branch is
unreachable. -/
theorem C4_amended (s : String) :
    (decodeBase64 s).success = true ∧ (decodeBase64 s).message = none ∧
    (decodeBase64 s).decrypted.isSome = true :=
  ⟨rfl, rfl, rfl⟩

unseal juniperLoop in
/-- C5 (counterexample): `"$9$!"` carries a character outside the Juniper
alphabet, yet the decoder succeeds: the `indexOf` sentinel `-1` feeds the gap
formula and `fromCharCode(-1)` emits the unit `65535`. -/
theorem C5_counterexample :
    '!' ∈ "$9$!".data ∧ JUNIPER_KEYS_STRING.contains '!' = false ∧
    decryptJuniperType9 "$9$!" =
      { success := true, decrypted := some (JsValue.str [65535]), message := none } := by
  decide

/-- C5 (amended): every input starting with `"$9$"` — whatever the remainder
contains — is decoded with `success = true`, a present plaintext and no
failure reason: an out-of-alphabet character is a silent `-1` sentinel, not a
decode failure. -/
theorem C5_amended (s : String) (h : s.data.take 3 = ['$', '9', '$']) :
    (decryptJuniperType9 s).success = true ∧ (decryptJuniperType9 s).message = none ∧
    (decryptJuniperType9 s).decrypted.isSome = true := by
  rw [decryptJuniperType9, if_pos h]
  cases takeUntilDollar9 (s.data.drop 3) <;> exact ⟨rfl, rfl, rfl⟩

/-- C5 (witness): the amended theorem at `"$9$!"`. -/
theorem C5_witness :
    (decryptJuniperType9 "$9$!").success = true ∧ (decryptJuniperType9 "$9$!").message = none ∧
    (decryptJuniperType9 "$9$!").decrypted.isSome = true :=
  C5_amended "$9$!" (by decide)

/-- C6 (counterexample): an unrecognized scheme is answered with the message
`"Unsupported encryption type"`, not the claimed `"unsupported scheme"`. -/
theorem C6_counterexample :
    (["cisco-type7", "juniper-type9", "base64", "generic-md5"].contains "rot13") = false ∧
    passwordDecrypt "rot13" "dGVzdA" =
      { success := false, decrypted := none, message := some "Unsupported encryption type" } ∧
    (("Unsupported encryption type" : String) == "unsupported scheme") = false := by
  decide

/-- C6 (amended): the dispatcher is a total pure switch — it always returns a
result (the embedded decoders are total, matching the source where no
reachable path throws) — and any scheme outside the four recognized names
yields `success = false` with the failure reason
`"Unsupported encryption type"`. -/
theorem C6_amended (encodedText scheme : String)
    (h1 : scheme ≠ "cisco-type7") (h2 : scheme ≠ "juniper-type9")
    (h3 : scheme ≠ "base64") (h4 : scheme ≠ "generic-md5") :
    passwordDecrypt scheme encodedText =
      { success := false, decrypted := none, message := some "Unsupported encryption type" } := by
  rw [passwordDecrypt, if_neg h1, if_neg h2, if_neg h3, if_neg h4]

/-- C6 (witness): the amended theorem at the unrecognized scheme `"rot13"`. -/
theorem C6_witness :
    passwordDecrypt "rot13" "dGVzdA" =
      { success := false, decrypted := none, message := some "Unsupported encryption type" } :=
  C6_amended "dGVzdA" "rot13" (by decide) (by decide) (by decide) (by decide)

theorem wellFormed_cisco (s : String) : wellFormedResult (decryptCiscoType7 s) := by
  rw [decryptCiscoType7]
  split
  · exact Or.inl ⟨rfl, rfl, rfl⟩
  · exact Or.inr ⟨rfl, rfl, rfl⟩

theorem wellFormed_juniper (s : String) : wellFormedResult (decryptJuniperType9 s) := by
  rw [decryptJuniperType9]
  split
  · cases takeUntilDollar9 (s.data.drop 3) <;> exact Or.inl ⟨rfl, rfl, rfl⟩
  · exact Or.inr ⟨rfl, rfl, rfl⟩

theorem wellFormed_md5 (s : String) : wellFormedResult (checkMD5Hash s) := by
  rw [checkMD5Hash]
  cases jsPlainObjectGet knownHashes (jsToLower s)
  · exact Or.inr ⟨rfl, rfl, rfl⟩
  · exact Or.inl ⟨rfl, rfl, rfl⟩

/-- C7: for every scheme and every input the dispatched result is well formed —
on success a plaintext is present and no failure reason, on failure the
plaintext is absent and a failure reason is present: exactly one of the two
fields, tied to the success flag. -/
theorem C7_result_invariant (scheme text : String) :
    wellFormedResult (passwordDecrypt scheme text) := by
  rw [passwordDecrypt]
  split
  · exact wellFormed_cisco text
  · split
    · exact wellFormed_juniper text
    · split
      · exact Or.inl ⟨rfl, rfl, rfl⟩
      · split
        · exact wellFormed_md5 text
        · exact Or.inr ⟨rfl, rfl, rfl⟩

/-!
### C8: the Cisco Type 7 round trip
-/

theorem hexUDigit_facts : ∀ v, v < 16 →
    hexDigitVal (hexUDigit v) = v ∧ isHexDigit (hexUDigit v) = true := by
  decide

theorem digitChar_facts : ∀ k, k < 10 →
    (Char.ofNat (48 + k)).isDigit = true ∧ (Char.ofNat (48 + k)).toNat = 48 + k := by
  decide

theorem ciscoKey_getD_lt (j : Nat) : ciscoKey.getD j 0 < 256 := by
  rcases Nat.lt_or_ge j 53 with hj | hj
  · exact (by decide : ∀ j, j < 53 → ciscoKey.getD j 0 < 256) j hj
  · rw [List.getD_eq_getElem?_getD, List.getElem?_eq_none (by rw [ciscoKey_length]; omega)]
    decide

theorem ciscoEncodeBody_hex (s : Nat) : ∀ (i : Nat) (pt : List Nat), (∀ b ∈ pt, b < 256) →
    (ciscoEncodeBody s i pt).all isHexDigit = true
  | _, [], _ => rfl
  | i, b :: rest, hb => by
      have hlt : b ^^^ ciscoKey.getD ((i + s) % 53) 0 < 256 :=
        @Nat.xor_lt_two_pow b _ 8 (by have := hb b (by simp); omega)
          (by have := ciscoKey_getD_lt ((i + s) % 53); omega)
      rw [ciscoEncodeBody]
      simp only [List.all_cons, Bool.and_eq_true]
      refine ⟨(hexUDigit_facts _ (by omega)).2, (hexUDigit_facts _ (by omega)).2, ?_⟩
      exact ciscoEncodeBody_hex s (i + 1) rest (fun x hx => hb x (by simp [hx]))

theorem ciscoKeyCharAt_some (s p : Nat) :
    ciscoKeyCharAt (some s) p = ciscoKey.getD ((p + s) % 53) 0 := by
  rw [ciscoKeyCharAt, ciscoKey_length]

/-- Decoding inverts encoding pair by pair: hex digits parse back to the XOR-ed
byte, and XOR-ing with the same key character twice is the identity. -/
theorem ciscoLoop_encodeBody (s : Nat) : ∀ (i : Nat) (pt : List Nat), (∀ b ∈ pt, b < 256) →
    ciscoLoop (some s) i (ciscoEncodeBody s i pt) = pt
  | _, [], _ => rfl
  | i, b :: rest, hb => by
      have hlt : b ^^^ ciscoKey.getD ((i + s) % 53) 0 < 256 :=
        @Nat.xor_lt_two_pow b _ 8 (by have := hb b (by simp); omega)
          (by have := ciscoKey_getD_lt ((i + s) % 53); omega)
      rw [ciscoEncodeBody, ciscoLoop]
      rw [jsParseIntHex_pair _ _ (hexUDigit_facts _ (by omega)).2 (hexUDigit_facts _ (by omega)).2]
      rw [(hexUDigit_facts _ (by omega)).1, (hexUDigit_facts _ (by omega)).1]
      rw [Option.getD_some, Nat.div_add_mod, ciscoKeyCharAt_some s i, Nat.xor_cancel_right]
      rw [ciscoLoop_encodeBody s (i + 1) rest (fun x hx => hb x (by simp [hx]))]

/-- C8: for every plaintext of byte-sized codes and every two-digit salt,
encoding with the symmetric XOR/salt algorithm of the spec and decoding with
the embedded Cisco Type 7 decoder returns the original plaintext. -/
theorem C8_roundtrip (ptext : List Nat) (hb : ∀ b ∈ ptext, b < 256) (s : Nat) (hs : s < 100) :
    decryptCiscoType7 (ciscoEncode s ptext) =
      { success := true, decrypted := some (JsValue.str ptext), message := none } := by
  have hd0 := digitChar_facts (s / 10) (by omega)
  have hd1 := digitChar_facts (s % 10) (by omega)
  have hall : (Char.ofNat (48 + s / 10) :: Char.ofNat (48 + s % 10) ::
      ciscoEncodeBody s 0 ptext).all isHexDigit = true := by
    simp only [List.all_cons, Bool.and_eq_true]
    refine ⟨?_, ?_, ciscoEncodeBody_hex s 0 ptext hb⟩
    · rw [isHexDigit, hd0.1]; rfl
    · rw [isHexDigit, hd1.1]; rfl
  rw [ciscoEncode, decryptCiscoType7]
  rw [if_pos ⟨by simp, hall⟩]
  rw [show (String.mk (Char.ofNat (48 + s / 10) :: Char.ofNat (48 + s % 10) ::
    ciscoEncodeBody s 0 ptext)).data = Char.ofNat (48 + s / 10) :: Char.ofNat (48 + s % 10) ::
    ciscoEncodeBody s 0 ptext from rfl]
  rw [show List.take 2 (Char.ofNat (48 + s / 10) :: Char.ofNat (48 + s % 10) ::
        ciscoEncodeBody s 0 ptext) =
      [Char.ofNat (48 + s / 10), Char.ofNat (48 + s % 10)] from rfl]
  rw [show List.drop 2 (Char.ofNat (48 + s / 10) :: Char.ofNat (48 + s % 10) ::
      ciscoEncodeBody s 0 ptext) = ciscoEncodeBody s 0 ptext from rfl]
  rw [jsParseIntDec_pair _ _ hd0.1 hd1.1]
  rw [hd0.2, hd1.2]
  rw [show 10 * (48 + s / 10 - 48) + (48 + s % 10 - 48) = s from by omega]
  rw [ciscoLoop_encodeBody s 0 ptext hb]

/-- C8 (witness): the round trip at plaintext `"cisco"` and salt 9, whose
encoding is exactly the documented vector `"094F471A1A0A"`. -/
theorem C8_witness :
    decryptCiscoType7 (ciscoEncode 9 (strCodes "cisco")) =
      { success := true, decrypted := some (JsValue.str (strCodes "cisco")), message := none } ∧
    ciscoEncode 9 (strCodes "cisco") = "094F471A1A0A" :=
  ⟨C8_roundtrip (strCodes "cisco") (by decide) 9 (by decide), by decide⟩

/-- C9 (counterexample): the input `"constructor"` is not a key of the table,
yet the property read finds the inherited, truthy
`Object.prototype.constructor` and the decoder answers `success = true` with
that non-string member — against the claim that every input not in the table
fails; and a genuine miss is answered with
`"Hash not found in known passwords database"` (capital `H`), not the
claimed lowercase message. -/
theorem C9_counterexample :
    knownHashes.lookup "constructor" = none ∧
    checkMD5Hash "constructor" =
      { success := true, decrypted := some (JsValue.inherited "constructor"), message := none } ∧
    checkMD5Hash "0000000000000000000000000000000" =
      { success := false, decrypted := none,
        message := some "Hash not found in known passwords database" } ∧
    (("Hash not found in known passwords database" : String) ==
      "hash not found in known passwords database") = false := by
  decide

/-- C9 (amended): `checkMD5Hash` hashes nothing and depends only on the
lowercased input; the known digest of `"password"` is found in either case;
and every input whose lowercased form is neither a table key nor an
`Object.prototype` property name fails with the message
`"Hash not found in known passwords database"` (capital `H`) — the
prototype-chain names (reachable through `toLowerCase` only as
`"constructor"` and `"__proto__"`) instead hit the inherited truthy member
and succeed. -/
theorem C9_amended :
    (∀ h1 h2 : String, jsToLower h1 = jsToLower h2 → checkMD5Hash h1 = checkMD5Hash h2) ∧
    (∀ hash : String, knownHashes.lookup (jsToLower hash) = none →
      objectPrototypeProps.contains (jsToLower hash) = false →
      checkMD5Hash hash =
        { success := false, decrypted := none,
          message := some "Hash not found in known passwords database" }) ∧
    checkMD5Hash "5f4dcc3b5aa765d61d8327deb882cf99" =
      { success := true, decrypted := some (JsValue.str (strCodes "password")), message := none } ∧
    checkMD5Hash "5F4DCC3B5AA765D61D8327DEB882CF99" =
      { success := true, decrypted := some (JsValue.str (strCodes "password")), message := none } ∧
    checkMD5Hash "0000000000000000000000000000000" =
      { success := false, decrypted := none,
        message := some "Hash not found in known passwords database" } ∧
    checkMD5Hash "constructor" =
      { success := true, decrypted := some (JsValue.inherited "constructor"), message := none } ∧
    checkMD5Hash "__proto__" =
      { success := true, decrypted := some (JsValue.inherited "__proto__"), message := none } := by
  refine ⟨?_, ?_, by decide, by decide, by decide, by decide, by decide⟩
  · intro h1 h2 h
    rw [checkMD5Hash, checkMD5Hash, h]
  · intro hash hnone hproto
    rw [checkMD5Hash, jsPlainObjectGet, hnone]
    simp only [hproto, Bool.false_eq_true, if_false]

/-- C10: the input `"$9$"` with an empty remainder decodes to `success = true`
with the empty plaintext: the family lookup of the empty first character is
`undefined`, the `NaN` skip strips nothing, and the loop body never runs. -/
theorem C10_empty_remainder :
    decryptJuniperType9 "$9$" =
      { success := true, decrypted := some (JsValue.str []), message := none } := by
  decide
